import Mathlib

set_option linter.unusedVariables false

/-!
# Shallow embedding of the `votesmart` NEAR contract (src/contract/src/lib.rs)

The contract stores five `UnorderedMap` tables (parties, campaigns, regions,
districts, candidates) and one `LookupMap` recommendation index keyed by a
`RecommendationIndex` composite key.  A NEAR `UnorderedMap` keeps parallel
insertion-ordered vectors of keys and values: inserting an existing key
overwrites the value in place (the key keeps its position), inserting a fresh
key appends at the end.  We model each table as an association list
`List (K × V)` with exactly that insert semantics; `keys_as_vector` and
`values_as_vector` are the projections.  `env::predecessor_account_id()` is
passed explicitly as a `caller` argument to every exposed method; a contract
panic (`assert_eq!` failing in `assert_access`, which aborts the call and
persists nothing) is modelled as `Except.error`; the `.unwrap()` element
accesses inside the pagination helpers are modelled in the `Option` monad, so
a hypothetical out-of-range access would surface as `none`.
-/

namespace Votesmart

abbrev AccountId := String

structure Region where
  title : String
deriving DecidableEq

structure District where
  region_id : Nat
  title : String
deriving DecidableEq

structure Candidate where
  title : String
  party_id : Nat
deriving DecidableEq

structure Party where
  index : Nat
  title : String
deriving DecidableEq

structure Recommendation where
  title : String
  party : String
deriving DecidableEq

structure RecommendationIndex where
  campaign_id : Nat
  district_id : Nat
deriving DecidableEq

/-- `UnorderedMap::get` / `LookupMap::get`: value of the unique entry with the
given key (entries are kept key-unique by `mapInsert`). -/
def mapGet {K V : Type} [DecidableEq K] (m : List (K × V)) (k : K) : Option V :=
  match m with
  | [] => none
  | p :: rest => if p.1 = k then some p.2 else mapGet rest k

/-- Whether the map holds an entry for key `k`. -/
def containsKey {K V : Type} [DecidableEq K] (m : List (K × V)) (k : K) : Bool :=
  match m with
  | [] => false
  | p :: rest => p.1 = k || containsKey rest k

/-- Replace the value stored at key `k` in place (position preserved). -/
def overwriteKey {K V : Type} [DecidableEq K] (m : List (K × V)) (k : K) (v : V) :
    List (K × V) :=
  m.map (fun p => if p.1 = k then (k, v) else p)

/-- `UnorderedMap::insert` / `LookupMap::insert`: overwrite in place when the
key exists, append otherwise. -/
def mapInsert {K V : Type} [DecidableEq K] (m : List (K × V)) (k : K) (v : V) :
    List (K × V) :=
  if containsKey m k then overwriteKey m k v else m ++ [(k, v)]

/-- The `for data in batch { table.insert(&data.0, &data.1) }` loop shared by
every bulk `add_*` method. -/
def applyBatch {K V : Type} [DecidableEq K] (m : List (K × V)) (l : List (K × V)) :
    List (K × V) :=
  l.foldl (fun acc data => mapInsert acc data.1 data.2) m

/-- `keys_as_vector`, as a list (insertion order). -/
def keysAsVector {K V : Type} (m : List (K × V)) : List K :=
  m.map Prod.fst

/-- `values_as_vector`, as a list (order-aligned with `keysAsVector`). -/
def valuesAsVector {K V : Type} (m : List (K × V)) : List V :=
  m.map Prod.snd

/-- The Rust iterator `a..b` (empty when `a ≥ b`). -/
def rangeIdx (a b : Nat) : List Nat :=
  List.range' a (b - a)

/-- `.map(f).collect()` where each `f i` contains `.unwrap()`s, in the
`Option` monad: a failing `unwrap` is `none`. -/
def optMapM {A : Type} (f : Nat → Option A) : List Nat → Option (List A)
  | [] => some []
  | i :: is => do
      let a ← f i
      let rest ← optMapM f is
      pure (a :: rest)

/-- `.filter(g)` where the predicate `g i` contains an `.unwrap()`, in the
`Option` monad. -/
def optFilterM (g : Nat → Option Bool) : List Nat → Option (List Nat)
  | [] => some []
  | i :: is => do
      let b ← g i
      let rest ← optFilterM g is
      pure (if b then i :: rest else rest)

/-- `(keys.get(index).unwrap(), values.get(index).unwrap().into())`. -/
def pairAccess {K V : Type} (m : List (K × V)) (index : Nat) : Option (K × V) := do
  let k ← (keysAsVector m)[index]?
  let v ← (valuesAsVector m)[index]?
  pure (k, v)

/-- `unordered_map_pagination` (src/contract/src/lib.rs, bottom): walk the
index range `from_index .. min(keys.len(), limit)` over the parallel key and
value vectors. -/
def unordered_map_pagination {K V : Type} (m : List (K × V))
    (from_index limit : Option Nat) : Option (List (K × V)) :=
  let keys := keysAsVector m
  let from_index := from_index.getD 0
  let limit := limit.getD keys.length
  optMapM (pairAccess m) (rangeIdx from_index (min keys.length limit))

deriving instance DecidableEq for Except

/-- The value of the positionally last batch entry carrying key `k`, if any:
what a left-to-right loop of inserts leaves at `k`. -/
def lookupLast {K V : Type} [DecidableEq K] (l : List (K × V)) (k : K) : Option V :=
  match l with
  | [] => none
  | p :: rest =>
      match lookupLast rest k with
      | some v => some v
      | none => if p.1 = k then some p.2 else none

/-- Every key present in `m` is still present in `m2`. -/
def keysPreserved {K V : Type} [DecidableEq K] (m m2 : List (K × V)) : Prop :=
  ∀ k, (mapGet m k).isSome → (mapGet m2 k).isSome

/-- The persistent contract state. -/
structure VoteSmart where
  master_account_id : AccountId
  parties : List (Nat × String)
  campaigns : List (Nat × String)
  regions : List (Nat × Region)
  districts : List (Nat × District)
  candidates : List (Nat × Candidate)
  recommendations : List (RecommendationIndex × Nat)
deriving DecidableEq

/-- `VoteSmart::new`: master account is the explicit admin argument when
given, the predecessor account otherwise; all tables start empty. -/
def VoteSmart.new (admin_id : Option AccountId) (predecessor : AccountId) : VoteSmart :=
  { master_account_id := admin_id.getD predecessor
    parties := []
    campaigns := []
    regions := []
    districts := []
    candidates := []
    recommendations := [] }

/-- `assert_access`: panic with "No access" unless the predecessor is the
master account. -/
def assert_access (s : VoteSmart) (caller : AccountId) : Except String Unit :=
  if caller = s.master_account_id then Except.ok () else Except.error "No access"

def set_master_account_id (s : VoteSmart) (caller : AccountId) (admin_id : AccountId) :
    Except String VoteSmart := do
  _ ← assert_access s caller
  pure { s with master_account_id := admin_id }

def add_campaign (s : VoteSmart) (caller : AccountId) (id : Nat) (title : String) :
    Except String VoteSmart := do
  _ ← assert_access s caller
  pure { s with campaigns := mapInsert s.campaigns id title }

def get_campaigns (s : VoteSmart) (caller : AccountId)
    (from_index limit : Option Nat) : Option (List (Nat × String)) :=
  unordered_map_pagination s.campaigns from_index limit

def add_parties (s : VoteSmart) (caller : AccountId) (parties : List (Nat × String)) :
    Except String VoteSmart := do
  _ ← assert_access s caller
  pure { s with parties := applyBatch s.parties parties }

def get_parties (s : VoteSmart) (caller : AccountId)
    (from_index limit : Option Nat) : Option (List (Nat × String)) :=
  unordered_map_pagination s.parties from_index limit

def add_regions (s : VoteSmart) (caller : AccountId) (regions : List (Nat × Region)) :
    Except String VoteSmart := do
  _ ← assert_access s caller
  pure { s with regions := applyBatch s.regions regions }

def get_regions (s : VoteSmart) (caller : AccountId)
    (from_index limit : Option Nat) : Option (List (Nat × Region)) :=
  unordered_map_pagination s.regions from_index limit

def add_districts (s : VoteSmart) (caller : AccountId) (districts : List (Nat × District)) :
    Except String VoteSmart := do
  _ ← assert_access s caller
  pure { s with districts := applyBatch s.districts districts }

def get_districts (s : VoteSmart) (caller : AccountId)
    (from_index limit : Option Nat) : Option (List (Nat × District)) :=
  unordered_map_pagination s.districts from_index limit

/-- `get_districts_by_region`: window the raw index range first, then filter
the windowed indices by `region_id`, then project the surviving indices. -/
def get_districts_by_region (s : VoteSmart) (caller : AccountId) (region_id : Nat)
    (from_index limit : Option Nat) : Option (List (Nat × District)) :=
  let keys := keysAsVector s.districts
  let values := valuesAsVector s.districts
  let from_index := from_index.getD 0
  let limit := limit.getD keys.length
  do
    let idxs ← optFilterM
      (fun index => do
        let v ← values[index]?
        pure (decide (v.region_id = region_id)))
      (rangeIdx from_index (min keys.length limit))
    optMapM (pairAccess s.districts) idxs

def add_candidates (s : VoteSmart) (caller : AccountId)
    (candidates : List (Nat × Candidate)) : Except String VoteSmart := do
  _ ← assert_access s caller
  pure { s with candidates := applyBatch s.candidates candidates }

def get_candidates (s : VoteSmart) (caller : AccountId)
    (from_index limit : Option Nat) : Option (List (Nat × Candidate)) :=
  unordered_map_pagination s.candidates from_index limit

/-- `add_recommendations`: each triple `(campaign_id, district_id, candidate_id)`
is inserted under the composite `RecommendationIndex` key. -/
def add_recommendations (s : VoteSmart) (caller : AccountId)
    (recommendations : List (Nat × Nat × Nat)) : Except String VoteSmart := do
  _ ← assert_access s caller
  pure { s with
    recommendations :=
      recommendations.foldl
        (fun acc data =>
          mapInsert acc ⟨data.1, data.2.1⟩ data.2.2)
        s.recommendations }

/-- `get_votesmart`: composite-key lookup, then candidate lookup, then party
lookup with the `"Unknown"` fallback. -/
def get_votesmart (s : VoteSmart) (caller : AccountId)
    (campaign_id district_id : Nat) : Option Recommendation :=
  let candidate_id := mapGet s.recommendations ⟨campaign_id, district_id⟩
  match candidate_id with
  | some candidate_id_unwrapped =>
      match mapGet s.candidates candidate_id_unwrapped with
      | some candidate_unwrapped =>
          some
            { title := candidate_unwrapped.title
              party :=
                (mapGet s.parties candidate_unwrapped.party_id).getD "Unknown" }
      | none => none
  | none => none

/-- Every key present in any of the six tables of `s` is still present in the
corresponding table of `s2`. -/
def tablesPreserved (s s2 : VoteSmart) : Prop :=
  keysPreserved s.parties s2.parties ∧
  keysPreserved s.campaigns s2.campaigns ∧
  keysPreserved s.regions s2.regions ∧
  keysPreserved s.districts s2.districts ∧
  keysPreserved s.candidates s2.candidates ∧
  keysPreserved s.recommendations s2.recommendations

/-- A populated sample state: five districts over two regions, a resolvable
recommendation, a dangling-party candidate and a dangling-candidate entry. -/
def sampleState : VoteSmart :=
  { master_account_id := "admin"
    parties := [(1, "Green")]
    campaigns := [(50, "Mayor 2021")]
    regions := [(1, { title := "North" }), (2, { title := "South" })]
    districts := [(1, { region_id := 1, title := "d1" }),
      (2, { region_id := 2, title := "d2" }),
      (3, { region_id := 1, title := "d3" }),
      (4, { region_id := 1, title := "d4" }),
      (5, { region_id := 2, title := "d5" })]
    candidates := [(10, { title := "Alice", party_id := 1 }),
      (11, { title := "Bob", party_id := 99 })]
    recommendations := [({ campaign_id := 100, district_id := 200 }, 10),
      ({ campaign_id := 101, district_id := 201 }, 11),
      ({ campaign_id := 102, district_id := 202 }, 77)] }

/-- The freshly constructed state with master account `"admin"`. -/
def emptyState : VoteSmart := VoteSmart.new (some "admin") "deployer"

/-! ## Lemmas about the association-list map model -/

theorem containsKey_cons {K V : Type} [DecidableEq K] (p : K × V) (rest : List (K × V))
    (k : K) : containsKey (p :: rest) k = (decide (p.1 = k) || containsKey rest k) := rfl

theorem mapGet_append_single {K V : Type} [DecidableEq K] (m : List (K × V)) (k k' : K)
    (v : V) (h : containsKey m k = false) :
    mapGet (m ++ [(k, v)]) k' = if k' = k then some v else mapGet m k' := by
  induction m with
  | nil =>
      by_cases hk : k' = k <;> simp [mapGet, hk]
      intro hk2
      exact absurd hk2.symm hk
  | cons p rest ih =>
      rw [containsKey_cons] at h
      simp only [Bool.or_eq_false_iff, decide_eq_false_iff_not] at h
      by_cases hpk : p.1 = k'
      · have hne : ¬k' = k := fun hkk => h.1 (hkk ▸ hpk)
        simp [mapGet, hpk, hne]
      · simp only [List.cons_append, mapGet, hpk, if_false, List.append_eq]
        rw [ih h.2]


theorem mapGet_overwriteKey_ne {K V : Type} [DecidableEq K] (m : List (K × V)) (k k' : K)
    (v : V) (h : k' ≠ k) : mapGet (overwriteKey m k v) k' = mapGet m k' := by
  induction m with
  | nil => rfl
  | cons p rest ih =>
      by_cases hpk : p.1 = k
      · have hkk : ¬k = k' := fun hkk => h hkk.symm
        have hpk' : ¬p.1 = k' := fun hh => h (hh ▸ hpk)
        simp [overwriteKey, mapGet, hpk, hkk, hpk'] at ih ⊢
        exact ih
      · simp [overwriteKey, mapGet, hpk] at ih ⊢
        by_cases hpk2 : p.1 = k' <;> simp [hpk2, ih]

theorem mapGet_overwriteKey_self {K V : Type} [DecidableEq K] (m : List (K × V)) (k : K)
    (v : V) (h : containsKey m k = true) : mapGet (overwriteKey m k v) k = some v := by
  induction m with
  | nil => simp [containsKey] at h
  | cons p rest ih =>
      rw [containsKey_cons] at h
      by_cases hpk : p.1 = k
      · simp [overwriteKey, mapGet, hpk]
      · simp only [Bool.or_eq_true, decide_eq_true_eq, hpk, false_or] at h
        simp [overwriteKey, mapGet, hpk] at ih ⊢
        exact ih h

theorem mapGet_mapInsert {K V : Type} [DecidableEq K] (m : List (K × V)) (k k' : K)
    (v : V) : mapGet (mapInsert m k v) k' = if k' = k then some v else mapGet m k' := by
  unfold mapInsert
  by_cases hc : containsKey m k
  · simp only [hc, if_true]
    by_cases hk : k' = k
    · rw [hk, mapGet_overwriteKey_self m k v hc, if_pos rfl]
    · rw [mapGet_overwriteKey_ne m k k' v hk, if_neg hk]
  · simp only [Bool.not_eq_true] at hc
    simp only [hc, Bool.false_eq_true, if_false]
    exact mapGet_append_single m k k' v hc

theorem containsKey_eq_isSome_mapGet {K V : Type} [DecidableEq K] (m : List (K × V))
    (k : K) : containsKey m k = (mapGet m k).isSome := by
  induction m with
  | nil => rfl
  | cons p rest ih =>
      by_cases hpk : p.1 = k <;> simp [containsKey, mapGet, hpk, ih]

theorem containsKey_iff_mem_keys {K V : Type} [DecidableEq K] (m : List (K × V)) (k : K) :
    containsKey m k = true ↔ k ∈ keysAsVector m := by
  induction m with
  | nil => simp [containsKey, keysAsVector]
  | cons p rest ih =>
      rw [containsKey_cons]
      unfold keysAsVector at ih ⊢
      simp only [List.map_cons, List.mem_cons, Bool.or_eq_true, decide_eq_true_eq, ih]
      constructor
      · rintro (h | h)
        · exact Or.inl h.symm
        · exact Or.inr h
      · rintro (h | h)
        · exact Or.inl h.symm
        · exact Or.inr h

theorem keysAsVector_overwriteKey {K V : Type} [DecidableEq K] (m : List (K × V)) (k : K)
    (v : V) : keysAsVector (overwriteKey m k v) = keysAsVector m := by
  induction m with
  | nil => rfl
  | cons p rest ih =>
      by_cases hpk : p.1 = k <;> simp [overwriteKey, keysAsVector, hpk] at ih ⊢ <;>
        exact ih

theorem overwriteKey_of_not_contains {K V : Type} [DecidableEq K] (m : List (K × V))
    (k : K) (v : V) (h : containsKey m k = false) : overwriteKey m k v = m := by
  induction m with
  | nil => rfl
  | cons p rest ih =>
      rw [containsKey_cons] at h
      simp only [Bool.or_eq_false_iff, decide_eq_false_iff_not] at h
      simp [overwriteKey, h.1] at ih ⊢
      exact ih h.2

theorem keys_nodup_mapInsert {K V : Type} [DecidableEq K] (m : List (K × V)) (k : K)
    (v : V) (h : (keysAsVector m).Nodup) : (keysAsVector (mapInsert m k v)).Nodup := by
  unfold mapInsert
  by_cases hc : containsKey m k
  · rw [if_pos hc, keysAsVector_overwriteKey]
    exact h
  · simp only [Bool.not_eq_true] at hc
    have hnk : k ∉ keysAsVector m := fun hm => by
      rw [(containsKey_iff_mem_keys m k).2 hm] at hc
      exact Bool.true_eq_false.mp hc
    rw [if_neg (by simp [hc])]
    unfold keysAsVector at hnk ⊢
    rw [List.map_append]
    simp only [List.map_cons, List.map_nil]
    exact List.Nodup.append h (List.nodup_singleton k)
      (fun a ha hak => hnk ((List.mem_singleton.mp hak) ▸ ha))

theorem containsKey_append_single_self {K V : Type} [DecidableEq K] (m : List (K × V))
    (k : K) (v : V) : containsKey (m ++ [(k, v)]) k = true := by
  rw [containsKey_iff_mem_keys]
  unfold keysAsVector
  simp

theorem containsKey_mapInsert_self {K V : Type} [DecidableEq K] (m : List (K × V))
    (k : K) (v : V) : containsKey (mapInsert m k v) k = true := by
  unfold mapInsert
  by_cases hc : containsKey m k
  · rw [if_pos hc, containsKey_iff_mem_keys, keysAsVector_overwriteKey,
      ← containsKey_iff_mem_keys]
    exact hc
  · rw [if_neg hc]
    exact containsKey_append_single_self m k v

theorem filter_key_of_not_contains {K V : Type} [DecidableEq K] (m : List (K × V))
    (k : K) (h : containsKey m k = false) :
    m.filter (fun p => decide (p.1 = k)) = [] := by
  induction m with
  | nil => rfl
  | cons p rest ih =>
      rw [containsKey_cons] at h
      simp only [Bool.or_eq_false_iff, decide_eq_false_iff_not] at h
      simp [List.filter, h.1, ih h.2]

theorem filter_key_overwriteKey {K V : Type} [DecidableEq K] (m : List (K × V)) (k : K)
    (v : V) (hnd : (keysAsVector m).Nodup) (hc : containsKey m k = true) :
    (overwriteKey m k v).filter (fun p => decide (p.1 = k)) = [(k, v)] := by
  induction m with
  | nil => simp [containsKey] at hc
  | cons p rest ih =>
      unfold keysAsVector at hnd
      simp only [List.map_cons, List.nodup_cons] at hnd
      by_cases hpk : p.1 = k
      · have hrest : containsKey rest k = false := by
          by_cases hcr : containsKey rest k
          · exact absurd ((containsKey_iff_mem_keys rest k).1 hcr)
              (by rw [← hpk]; exact fun hm => hnd.1 hm)
          · simpa using hcr
        rw [overwriteKey]
        simp only [List.map_cons, hpk, if_true]
        rw [show List.map (fun p => if p.1 = k then (k, v) else p) rest
            = overwriteKey rest k v from rfl,
          overwriteKey_of_not_contains rest k v hrest]
        simp [List.filter_cons, filter_key_of_not_contains rest k hrest]
      · rw [containsKey_cons] at hc
        simp only [Bool.or_eq_true, decide_eq_true_eq, hpk, false_or] at hc
        rw [overwriteKey]
        simp only [List.map_cons, hpk, if_false]
        simp [List.filter, hpk]
        exact ih hnd.2 hc

theorem overwriteKey_overwriteKey {K V : Type} [DecidableEq K] (m : List (K × V)) (k : K)
    (v : V) : overwriteKey (overwriteKey m k v) k v = overwriteKey m k v := by
  induction m with
  | nil => rfl
  | cons p rest ih =>
      by_cases hpk : p.1 = k <;> simp [overwriteKey, hpk] at ih ⊢ <;> exact ih

theorem mapInsert_idem {K V : Type} [DecidableEq K] (m : List (K × V)) (k : K) (v : V) :
    mapInsert (mapInsert m k v) k v = mapInsert m k v := by
  have hc2 : containsKey (mapInsert m k v) k = true := containsKey_mapInsert_self m k v
  rw [mapInsert, if_pos hc2]
  unfold mapInsert
  by_cases hc : containsKey m k
  · rw [if_pos hc]
    exact overwriteKey_overwriteKey m k v
  · rw [if_neg hc]
    have h1 : overwriteKey m k v = m :=
      overwriteKey_of_not_contains m k v (by simpa using hc)
    show overwriteKey (m ++ [(k, v)]) k v = m ++ [(k, v)]
    unfold overwriteKey at h1 ⊢
    rw [List.map_append, h1]
    simp

theorem mem_of_lookupLast_eq_some {K V : Type} [DecidableEq K] (l : List (K × V)) (k : K)
    (v : V) (h : lookupLast l k = some v) : (k, v) ∈ l := by
  induction l with
  | nil => simp [lookupLast] at h
  | cons p rest ih =>
      rw [lookupLast] at h
      cases h' : lookupLast rest k with
      | some w =>
          rw [h'] at h
          exact List.mem_cons_of_mem p (ih (h' ▸ h))
      | none =>
          rw [h'] at h
          by_cases hpk : p.1 = k
          · rw [if_pos hpk] at h
            have h3 : some p.2 = some v := h
            have hkv : (k, v) = p := by
              rw [← hpk, ← Option.some_inj.mp h3]
            exact hkv ▸ List.mem_cons_self p rest
          · rw [if_neg hpk] at h
            exact absurd h (by simp)

theorem lookupLast_eq_none_iff {K V : Type} [DecidableEq K] (l : List (K × V)) (k : K) :
    lookupLast l k = none ↔ k ∉ l.map Prod.fst := by
  induction l with
  | nil => simp [lookupLast]
  | cons p rest ih =>
      rw [lookupLast]
      cases h' : lookupLast rest k with
      | some v =>
          simp only [List.map_cons, List.mem_cons]
          constructor
          · intro hh
            exact absurd hh (Option.some_ne_none v)
          · intro hh
            exact (hh (Or.inr (List.mem_map_of_mem Prod.fst
              (mem_of_lookupLast_eq_some rest k v h')))).elim
      | none =>
          by_cases hpk : p.1 = k
          · simp [hpk, ih.1 h']
          · have hkp : ¬k = p.1 := fun hh => hpk hh.symm
            simp [hpk, ih.1 h', hkp]

theorem lookupLast_eq_some_of_mem {K V : Type} [DecidableEq K] (l : List (K × V)) (k : K)
    (v : V) (hnd : (l.map Prod.fst).Nodup) (hm : (k, v) ∈ l) :
    lookupLast l k = some v := by
  induction l with
  | nil => simp at hm
  | cons p rest ih =>
      simp only [List.map_cons, List.nodup_cons] at hnd
      rw [lookupLast]
      rcases List.mem_cons.1 hm with hh | hh
      · have hk : p.1 = k := by rw [← hh]
        have : lookupLast rest k = none := by
          rw [lookupLast_eq_none_iff, ← hk]
          exact hnd.1
        rw [this, if_pos hk, ← hh]
      · rw [ih hnd.2 hh]

theorem lookupLast_perm {K V : Type} [DecidableEq K] (l1 l2 : List (K × V))
    (hp : l1.Perm l2) (hnd : (l1.map Prod.fst).Nodup) (k : K) :
    lookupLast l1 k = lookupLast l2 k := by
  have hnd2 : (l2.map Prod.fst).Nodup := ((hp.map Prod.fst).nodup_iff).1 hnd
  cases h1 : lookupLast l1 k with
  | some v =>
      exact (lookupLast_eq_some_of_mem l2 k v hnd2
        ((hp.mem_iff).1 (mem_of_lookupLast_eq_some l1 k v h1))).symm
  | none =>
      rw [eq_comm, lookupLast_eq_none_iff]
      exact fun hm => (lookupLast_eq_none_iff l1 k).1 h1 (((hp.map Prod.fst).mem_iff).2 hm)

theorem applyBatch_cons {K V : Type} [DecidableEq K] (m : List (K × V)) (p : K × V)
    (l : List (K × V)) : applyBatch m (p :: l) = applyBatch (mapInsert m p.1 p.2) l := rfl

theorem mapGet_applyBatch {K V : Type} [DecidableEq K] (m : List (K × V))
    (l : List (K × V)) (k : K) :
    mapGet (applyBatch m l) k =
      match lookupLast l k with
      | some v => some v
      | none => mapGet m k := by
  induction l generalizing m with
  | nil => simp [applyBatch, lookupLast]
  | cons p rest ih =>
      rw [applyBatch_cons, ih, lookupLast]
      cases h' : lookupLast rest k with
      | some v => simp
      | none =>
          simp only
          rw [mapGet_mapInsert]
          by_cases hpk : p.1 = k
          · rw [if_pos hpk, if_pos hpk.symm]
          · rw [if_neg hpk, if_neg (fun hh => hpk hh.symm)]

theorem keysPreserved_refl {K V : Type} [DecidableEq K] (m : List (K × V)) :
    keysPreserved m m := fun _ h => h

theorem keysPreserved_mapInsert {K V : Type} [DecidableEq K] (m : List (K × V)) (k : K)
    (v : V) : keysPreserved m (mapInsert m k v) := by
  intro k' h
  rw [mapGet_mapInsert]
  by_cases hk : k' = k <;> simp [hk, h]

theorem keysPreserved_applyBatch {K V : Type} [DecidableEq K] (m : List (K × V))
    (l : List (K × V)) : keysPreserved m (applyBatch m l) := by
  induction l generalizing m with
  | nil => exact keysPreserved_refl m
  | cons p rest ih =>
      intro k h
      rw [applyBatch_cons]
      exact ih (mapInsert m p.1 p.2) k (keysPreserved_mapInsert m p.1 p.2 k h)

/-! ## Lemmas about pagination -/

theorem pairAccess_eq {K V : Type} (m : List (K × V)) (i : Nat) :
    pairAccess m i = m[i]? := by
  unfold pairAccess keysAsVector valuesAsVector
  cases h : m[i]? with
  | none => simp [List.getElem?_map, h]
  | some p => simp [List.getElem?_map, h]

theorem optMapM_getElem_range {A : Type} (m : List A) (fi n : Nat)
    (h : fi + n ≤ m.length) :
    optMapM (fun i => m[i]?) (List.range' fi n) = some ((m.drop fi).take n) := by
  induction n generalizing fi with
  | zero => simp [optMapM]
  | succ n ih =>
      have hfi : fi < m.length := by omega
      rw [List.range'_succ fi n 1, optMapM, List.getElem?_eq_getElem hfi,
        ih (fi + 1) (by omega), List.drop_eq_getElem_cons hfi, List.take_succ_cons]
      rfl

theorem unordered_map_pagination_eq_window {K V : Type} (m : List (K × V))
    (from_index limit : Option Nat) :
    unordered_map_pagination m from_index limit =
      some ((m.drop (from_index.getD 0)).take
        (min m.length (limit.getD m.length) - from_index.getD 0)) := by
  have hk : (keysAsVector m).length = m.length := by simp [keysAsVector]
  show optMapM (pairAccess m)
      (List.range' (from_index.getD 0)
        (min (keysAsVector m).length (limit.getD (keysAsVector m).length) -
          from_index.getD 0)) = _
  rw [hk, show pairAccess m = fun i => m[i]? from funext (pairAccess_eq m)]
  rcases Nat.le_total (from_index.getD 0) (min m.length (limit.getD m.length)) with
    hle | hge
  · have he : min m.length (limit.getD m.length) ≤ m.length := Nat.min_le_left _ _
    exact optMapM_getElem_range m _ _ (by omega)
  · have h0 : min m.length (limit.getD m.length) - from_index.getD 0 = 0 := by omega
    rw [h0]
    simp [optMapM]

theorem window_length {A : Type} (m : List A) (fi e : Nat) (he : e ≤ m.length) :
    ((m.drop fi).take (e - fi)).length = e - fi := by
  simp only [List.length_take, List.length_drop]
  omega

theorem optMapM_getElem_of_valid {A : Type} (m : List A) (d : A) (idxs : List Nat)
    (h : ∀ i ∈ idxs, i < m.length) :
    optMapM (fun i => m[i]?) idxs = some (idxs.map (fun i => (m[i]?).getD d)) := by
  induction idxs with
  | nil => rfl
  | cons i is ih =>
      have hi : i < m.length := h i (List.mem_cons_self i is)
      rw [optMapM, List.getElem?_eq_getElem hi,
        ih (fun j hj => h j (List.mem_cons_of_mem i hj))]
      simp [List.getElem?_eq_getElem hi]

theorem optFilterM_map_getElem {A : Type} (m : List A) (f : A → Bool) (d : A)
    (idxs : List Nat) (h : ∀ i ∈ idxs, i < m.length) :
    optFilterM (fun i => (m[i]?).map f) idxs =
      some (idxs.filter (fun i => f ((m[i]?).getD d))) := by
  induction idxs with
  | nil => rfl
  | cons i is ih =>
      have hi : i < m.length := h i (List.mem_cons_self i is)
      rw [optFilterM, List.getElem?_eq_getElem hi,
        ih (fun j hj => h j (List.mem_cons_of_mem i hj))]
      simp [List.getElem?_eq_getElem hi, List.filter_cons]

theorem filter_map_range {A : Type} (m : List A) (d : A) (q : A → Bool) (fi n : Nat)
    (h : fi + n ≤ m.length) :
    ((List.range' fi n).filter (fun i => q ((m[i]?).getD d))).map
        (fun i => (m[i]?).getD d) =
      ((m.drop fi).take n).filter q := by
  induction n generalizing fi with
  | zero => simp
  | succ n ih =>
      have hfi : fi < m.length := by omega
      rw [List.range'_succ fi n 1, List.drop_eq_getElem_cons hfi, List.take_succ_cons,
        List.filter_cons, List.filter_cons]
      by_cases hq : q (m.get ⟨fi, hfi⟩)
      · simp only [List.get_eq_getElem] at hq
        simp [hq, ih (fi + 1) (by omega), List.getElem?_eq_getElem hfi]
      · simp only [List.get_eq_getElem] at hq
        simp [hq, ih (fi + 1) (by omega), List.getElem?_eq_getElem hfi]

theorem get_districts_by_region_eq_window (s : VoteSmart) (caller : AccountId)
    (region_id : Nat) (from_index limit : Option Nat) :
    get_districts_by_region s caller region_id from_index limit =
      some (((s.districts.drop (from_index.getD 0)).take
          (min s.districts.length (limit.getD s.districts.length) -
            from_index.getD 0)).filter
        (fun p => decide (p.2.region_id = region_id))) := by
  have hk : (keysAsVector s.districts).length = s.districts.length := by
    simp [keysAsVector]
  have hg : (fun (index : Nat) => do
        let v ← (valuesAsVector s.districts)[index]?
        pure (decide (v.region_id = region_id))) =
      fun (index : Nat) => ((s.districts)[index]?).map
        (fun (p : Nat × District) => decide (p.2.region_id = region_id)) := by
    funext i
    unfold valuesAsVector
    rw [List.getElem?_map]
    cases (s.districts)[i]? <;> rfl
  show (do
      let idxs ← optFilterM
        (fun index => do
          let v ← (valuesAsVector s.districts)[index]?
          pure (decide (v.region_id = region_id)))
        (rangeIdx (from_index.getD 0)
          (min (keysAsVector s.districts).length
            (limit.getD (keysAsVector s.districts).length)))
      optMapM (pairAccess s.districts) idxs) = _
  rw [hg, hk]
  unfold rangeIdx
  rcases Nat.le_total (from_index.getD 0)
      (min s.districts.length (limit.getD s.districts.length)) with hle | hge
  · have he : min s.districts.length (limit.getD s.districts.length) ≤
        s.districts.length := Nat.min_le_left _ _
    have hvalid : ∀ i ∈ List.range' (from_index.getD 0)
        (min s.districts.length (limit.getD s.districts.length) - from_index.getD 0),
        i < s.districts.length := by
      intro i hi
      have := List.mem_range'_1.1 hi
      omega
    rw [optFilterM_map_getElem s.districts
      (fun (p : Nat × District) => decide (p.2.region_id = region_id))
      (0, District.mk 0 "") _ hvalid]
    show optMapM (pairAccess s.districts) _ = _
    rw [show pairAccess s.districts = fun i => (s.districts)[i]? from
      funext (pairAccess_eq s.districts)]
    rw [optMapM_getElem_of_valid s.districts (0, District.mk 0 "") _
      (fun i hi => hvalid i (List.mem_of_mem_filter hi))]
    rw [filter_map_range s.districts (0, District.mk 0 "")
      (fun (p : Nat × District) => decide (p.2.region_id = region_id)) _ _ (by omega)]
  · have h0 : min s.districts.length (limit.getD s.districts.length) -
        from_index.getD 0 = 0 := by omega
    rw [h0]
    simp [optFilterM, optMapM]

theorem mapGet_applyBatch_perm {K V : Type} [DecidableEq K] (m : List (K × V))
    (l1 l2 : List (K × V)) (hp : l1.Perm l2) (hnd : (l1.map Prod.fst).Nodup) (k : K) :
    mapGet (applyBatch m l1) k = mapGet (applyBatch m l2) k := by
  rw [mapGet_applyBatch, mapGet_applyBatch, lookupLast_perm l1 l2 hp hnd k]

theorem foldl_insert_triples_eq_applyBatch (acc : List (RecommendationIndex × Nat))
    (l : List (Nat × Nat × Nat)) :
    l.foldl (fun acc data => mapInsert acc ⟨data.1, data.2.1⟩ data.2.2) acc =
      applyBatch acc
        (l.map (fun data => ({ campaign_id := data.1, district_id := data.2.1 }, data.2.2))) := by
  rw [applyBatch, List.foldl_map]

/-! ## Claim theorems -/

/-- C1: `get_votesmart` returns `none` when the composite recommendation
index has no entry for `(campaign_id, district_id)`; returns `none` when the
indexed `candidate_id` is absent from the candidates table; returns the
candidate's title with the literal party `"Unknown"` when the candidate
exists but its `party_id` is absent from the parties table; and returns the
candidate's title with the stored party title when all references resolve. -/
theorem get_votesmart_resolution_spec (s : VoteSmart) (caller : AccountId)
    (campaign_id district_id : Nat) :
    (mapGet s.recommendations { campaign_id, district_id } = none →
      get_votesmart s caller campaign_id district_id = none) ∧
    (∀ cid, mapGet s.recommendations { campaign_id, district_id } = some cid →
      mapGet s.candidates cid = none →
      get_votesmart s caller campaign_id district_id = none) ∧
    (∀ cid cand, mapGet s.recommendations { campaign_id, district_id } = some cid →
      mapGet s.candidates cid = some cand →
      mapGet s.parties cand.party_id = none →
      get_votesmart s caller campaign_id district_id =
        some { title := cand.title, party := "Unknown" }) ∧
    (∀ cid cand partyTitle,
      mapGet s.recommendations { campaign_id, district_id } = some cid →
      mapGet s.candidates cid = some cand →
      mapGet s.parties cand.party_id = some partyTitle →
      get_votesmart s caller campaign_id district_id =
        some { title := cand.title, party := partyTitle }) := by
  refine ⟨?_, ?_, ?_, ?_⟩
  · intro h
    simp only [get_votesmart, h]
  · intro cid h1 h2
    simp only [get_votesmart, h1, h2]
  · intro cid cand h1 h2 h3
    simp only [get_votesmart, h1, h2, h3]
    rfl
  · intro cid cand partyTitle h1 h2 h3
    simp only [get_votesmart, h1, h2, h3]
    rfl

/-- Witness for C1: all four resolution paths exercised on `sampleState`. -/
theorem get_votesmart_resolution_witness :
    get_votesmart sampleState "anyone" 100 200 =
      some { title := "Alice", party := "Green" } ∧
    get_votesmart sampleState "anyone" 101 201 =
      some { title := "Bob", party := "Unknown" } ∧
    get_votesmart sampleState "anyone" 102 202 = none ∧
    get_votesmart sampleState "anyone" 103 203 = none := by
  refine ⟨?_, ?_, ?_, ?_⟩
  · exact (get_votesmart_resolution_spec sampleState "anyone" 100 200).2.2.2
      10 { title := "Alice", party_id := 1 } "Green" (by decide) (by decide) (by decide)
  · exact (get_votesmart_resolution_spec sampleState "anyone" 101 201).2.2.1
      11 { title := "Bob", party_id := 99 } (by decide) (by decide) (by decide)
  · exact (get_votesmart_resolution_spec sampleState "anyone" 102 202).2.1
      77 (by decide) (by decide)
  · exact (get_votesmart_resolution_spec sampleState "anyone" 103 203).1 (by decide)

/-- C2: `get_districts_by_region` applies the positional index window
`[from_index, min(total, limit))` to the unfiltered district table first and
only then filters to the requested region: its output is the window of the
full district sequence restricted to matching districts, in insertion order.
On the five-district two-region `sampleState`, the window `[0, 2)` keeps only
district 1, while a filter-then-page implementation would return the first
two region-1 districts. -/
theorem get_districts_by_region_windows_then_filters :
    (∀ (s : VoteSmart) (caller : AccountId) (region_id : Nat)
        (from_index limit : Option Nat),
      get_districts_by_region s caller region_id from_index limit =
        some (((s.districts.drop (from_index.getD 0)).take
            (min s.districts.length (limit.getD s.districts.length) -
              from_index.getD 0)).filter
          (fun p => decide (p.2.region_id = region_id)))) ∧
    get_districts_by_region sampleState "reader" 1 (some 0) (some 2) =
      some [(1, { region_id := 1, title := "d1" })] ∧
    (sampleState.districts.filter (fun p => decide (p.2.region_id = 1))).take 2 =
      [(1, { region_id := 1, title := "d1" }), (3, { region_id := 1, title := "d3" })] :=
  ⟨get_districts_by_region_eq_window, by decide, by decide⟩

/-- C3: the shared pagination helper returns exactly the `(key, value)` pairs
at positions `[from_index, min(total, limit))` of the table's insertion
order, with defaults `from_index = 0` and `limit = total`; the result length
is `min(total, limit) - from_index` (truncated at zero); and every list
accessor is literally this helper applied to its table. -/
theorem pagination_window_spec :
    (∀ (K V : Type) (m : List (K × V)) (from_index limit : Option Nat),
      unordered_map_pagination m from_index limit =
        some ((m.drop (from_index.getD 0)).take
          (min m.length (limit.getD m.length) - from_index.getD 0)) ∧
      (unordered_map_pagination m from_index limit).map List.length =
        some (min m.length (limit.getD m.length) - from_index.getD 0)) ∧
    (∀ s caller from_index limit, get_campaigns s caller from_index limit =
      unordered_map_pagination s.campaigns from_index limit) ∧
    (∀ s caller from_index limit, get_parties s caller from_index limit =
      unordered_map_pagination s.parties from_index limit) ∧
    (∀ s caller from_index limit, get_regions s caller from_index limit =
      unordered_map_pagination s.regions from_index limit) ∧
    (∀ s caller from_index limit, get_districts s caller from_index limit =
      unordered_map_pagination s.districts from_index limit) ∧
    (∀ s caller from_index limit, get_candidates s caller from_index limit =
      unordered_map_pagination s.candidates from_index limit) := by
  refine ⟨?_, fun s c fi l => rfl, fun s c fi l => rfl, fun s c fi l => rfl,
    fun s c fi l => rfl, fun s c fi l => rfl⟩
  intro K V m fi lim
  refine ⟨unordered_map_pagination_eq_window m fi lim, ?_⟩
  rw [unordered_map_pagination_eq_window m fi lim, Option.map_some']
  rw [window_length m (fi.getD 0) (min m.length (lim.getD m.length))
    (Nat.min_le_left _ _)]

/-- C9: for every `from_index` and `limit` — including `from_index` past the
table size, `limit = 0`, and `limit` past the table size — the pagination
helper and `get_districts_by_region` return a value (`isSome`): every index
drawn from `[from_index, min(total, limit))` is in range, so the internal
`unwrap`s cannot fail. -/
theorem pagination_never_fails :
    (∀ (K V : Type) (m : List (K × V)) (from_index limit : Option Nat),
      (unordered_map_pagination m from_index limit).isSome) ∧
    (∀ (s : VoteSmart) (caller : AccountId) (region_id : Nat)
        (from_index limit : Option Nat),
      (get_districts_by_region s caller region_id from_index limit).isSome) := by
  constructor
  · intro K V m fi lim
    rw [unordered_map_pagination_eq_window]
    rfl
  · intro s c rid fi lim
    rw [get_districts_by_region_eq_window]
    rfl

/-- C4: every mutating operation invoked by a caller other than the stored
master account fails with the `"No access"` panic; in this embedding an
`Except.error` result carries no successor state, so the pre-call state (all
six tables and the master identity) persists unchanged. -/
theorem unauthorized_mutations_fail (s : VoteSmart) (caller : AccountId)
    (h : caller ≠ s.master_account_id) :
    (∀ admin_id, set_master_account_id s caller admin_id =
      Except.error "No access") ∧
    (∀ id title, add_campaign s caller id title = Except.error "No access") ∧
    (∀ l, add_parties s caller l = Except.error "No access") ∧
    (∀ l, add_regions s caller l = Except.error "No access") ∧
    (∀ l, add_districts s caller l = Except.error "No access") ∧
    (∀ l, add_candidates s caller l = Except.error "No access") ∧
    (∀ l, add_recommendations s caller l = Except.error "No access") := by
  have ha : assert_access s caller = Except.error "No access" := by
    unfold assert_access
    rw [if_neg h]
  refine ⟨fun a => ?_, fun i t => ?_, fun l => ?_, fun l => ?_, fun l => ?_,
    fun l => ?_, fun l => ?_⟩ <;>
    simp [set_master_account_id, add_campaign, add_parties, add_regions,
      add_districts, add_candidates, add_recommendations, ha]

/-- Witness for C4: the outsider `"eve"` cannot mutate `sampleState`. -/
theorem unauthorized_mutations_fail_witness :
    add_parties sampleState "eve" [(2, "Red")] = Except.error "No access" :=
  (unauthorized_mutations_fail sampleState "eve" (by decide)).2.2.1 [(2, "Red")]

/-- C5: inserting twice under the same identifier overwrites: the point
lookup afterwards yields the second value, key uniqueness is preserved, the
full listing contains exactly one entry for the identifier — the second
value — and at the operation level two same-id `add_campaign` calls by the
admin leave the doubly-overwritten table. -/
theorem insert_overwrites_spec {K V : Type} [DecidableEq K] (m : List (K × V)) (k : K)
    (v1 v2 : V) (hnd : (keysAsVector m).Nodup) :
    mapGet (mapInsert (mapInsert m k v1) k v2) k = some v2 ∧
    (keysAsVector (mapInsert (mapInsert m k v1) k v2)).Nodup ∧
    (mapInsert (mapInsert m k v1) k v2).filter (fun p => decide (p.1 = k)) =
      [(k, v2)] ∧
    (∀ (s : VoteSmart) (id : Nat) (t1 t2 : String),
      (add_campaign s s.master_account_id id t1).bind
          (fun s1 => add_campaign s1 s.master_account_id id t2) =
        Except.ok { s with campaigns := mapInsert (mapInsert s.campaigns id t1) id t2 }) := by
  refine ⟨?_, ?_, ?_, ?_⟩
  · rw [mapGet_mapInsert, if_pos rfl]
  · exact keys_nodup_mapInsert _ k v2 (keys_nodup_mapInsert m k v1 hnd)
  · have hc1 : containsKey (mapInsert m k v1) k = true := containsKey_mapInsert_self m k v1
    rw [show mapInsert (mapInsert m k v1) k v2 = overwriteKey (mapInsert m k v1) k v2 by
      rw [mapInsert, if_pos hc1]]
    exact filter_key_overwriteKey (mapInsert m k v1) k v2
      (keys_nodup_mapInsert m k v1 hnd) hc1
  · intro s id t1 t2
    have h1 : add_campaign s s.master_account_id id t1 =
        Except.ok { s with campaigns := mapInsert s.campaigns id t1 } := by
      simp [add_campaign, assert_access]
    rw [h1]
    show add_campaign { s with campaigns := mapInsert s.campaigns id t1 }
        s.master_account_id id t2 = _
    simp [add_campaign, assert_access]

/-- Witness for C5: overwriting id 1 in the parties table of `sampleState`. -/
theorem insert_overwrites_witness :
    mapGet (mapInsert (mapInsert sampleState.parties 1 "Red") 1 "Blue") 1 =
      some "Blue" :=
  (insert_overwrites_spec sampleState.parties 1 "Red" "Blue" (by decide)).1

/-- C7: no read operation consults the access guard — each of the seven
reads returns identical results for any two caller identities and never
produces the `Unauthorized` failure (the paginated reads always return a
value) — while every mutating operation propagates whatever error the guard
raises before touching any state. -/
theorem reads_unrestricted_guard_first :
    (∀ s c1 c2 from_index limit,
      get_campaigns s c1 from_index limit = get_campaigns s c2 from_index limit) ∧
    (∀ s c1 c2 from_index limit,
      get_parties s c1 from_index limit = get_parties s c2 from_index limit) ∧
    (∀ s c1 c2 from_index limit,
      get_regions s c1 from_index limit = get_regions s c2 from_index limit) ∧
    (∀ s c1 c2 from_index limit,
      get_districts s c1 from_index limit = get_districts s c2 from_index limit) ∧
    (∀ s c1 c2 from_index limit,
      get_candidates s c1 from_index limit = get_candidates s c2 from_index limit) ∧
    (∀ s c1 c2 region_id from_index limit,
      get_districts_by_region s c1 region_id from_index limit =
        get_districts_by_region s c2 region_id from_index limit) ∧
    (∀ s c1 c2 campaign_id district_id,
      get_votesmart s c1 campaign_id district_id =
        get_votesmart s c2 campaign_id district_id) ∧
    (∀ s caller (from_index limit : Option Nat),
      (get_campaigns s caller from_index limit).isSome ∧
      (get_parties s caller from_index limit).isSome ∧
      (get_regions s caller from_index limit).isSome ∧
      (get_districts s caller from_index limit).isSome ∧
      (get_candidates s caller from_index limit).isSome) ∧
    (∀ s caller e, assert_access s caller = Except.error e →
      (∀ a, set_master_account_id s caller a = Except.error e) ∧
      (∀ i t, add_campaign s caller i t = Except.error e) ∧
      (∀ l, add_parties s caller l = Except.error e) ∧
      (∀ l, add_regions s caller l = Except.error e) ∧
      (∀ l, add_districts s caller l = Except.error e) ∧
      (∀ l, add_candidates s caller l = Except.error e) ∧
      (∀ l, add_recommendations s caller l = Except.error e)) := by
  refine ⟨fun s c1 c2 fi l => rfl, fun s c1 c2 fi l => rfl, fun s c1 c2 fi l => rfl,
    fun s c1 c2 fi l => rfl, fun s c1 c2 fi l => rfl, fun s c1 c2 r fi l => rfl,
    fun s c1 c2 ci di => rfl, ?_, ?_⟩
  · intro s caller fi lim
    refine ⟨?_, ?_, ?_, ?_, ?_⟩ <;>
      · show (unordered_map_pagination _ fi lim).isSome
        rw [unordered_map_pagination_eq_window]
        rfl
  · intro s caller e ha
    refine ⟨fun a => ?_, fun i t => ?_, fun l => ?_, fun l => ?_, fun l => ?_,
      fun l => ?_, fun l => ?_⟩ <;>
      simp [set_master_account_id, add_campaign, add_parties, add_regions,
        add_districts, add_candidates, add_recommendations, ha]

/-- Witness for C7: the guard error raised for `"eve"` surfaces unchanged
from `set_master_account_id`. -/
theorem reads_unrestricted_guard_first_witness :
    set_master_account_id sampleState "eve" "eve" = Except.error "No access" :=
  ((reads_unrestricted_guard_first).2.2.2.2.2.2.2.2 sampleState "eve" "No access"
    (by decide)).1 "eve"

/-- C8: no operation deletes: every key present in any of the six tables
before a successful mutating call is still present (with some value) after
it; key sets only grow or have values overwritten. -/
theorem no_deletion (s : VoteSmart) :
    (∀ caller a s2, set_master_account_id s caller a = Except.ok s2 →
      tablesPreserved s s2) ∧
    (∀ caller i t s2, add_campaign s caller i t = Except.ok s2 →
      tablesPreserved s s2) ∧
    (∀ caller l s2, add_parties s caller l = Except.ok s2 →
      tablesPreserved s s2) ∧
    (∀ caller l s2, add_regions s caller l = Except.ok s2 →
      tablesPreserved s s2) ∧
    (∀ caller l s2, add_districts s caller l = Except.ok s2 →
      tablesPreserved s s2) ∧
    (∀ caller l s2, add_candidates s caller l = Except.ok s2 →
      tablesPreserved s s2) ∧
    (∀ caller l s2, add_recommendations s caller l = Except.ok s2 →
      tablesPreserved s s2) := by
  have hpres : ∀ (s2 : VoteSmart),
      s2.parties = s.parties → s2.campaigns = s.campaigns → s2.regions = s.regions →
      s2.districts = s.districts → s2.candidates = s.candidates →
      s2.recommendations = s.recommendations → tablesPreserved s s2 := by
    intro s2 h1 h2 h3 h4 h5 h6
    refine ⟨?_, ?_, ?_, ?_, ?_, ?_⟩ <;> simp_all [keysPreserved_refl]
  refine ⟨?_, ?_, ?_, ?_, ?_, ?_, ?_⟩ <;> intro caller <;> intros <;>
    rename_i harg <;> revert harg
  all_goals (
    cases ha : assert_access s caller with
    | error e =>
        intro harg
        simp [set_master_account_id, add_campaign, add_parties, add_regions,
          add_districts, add_candidates, add_recommendations, ha] at harg
    | ok u =>
        intro harg
        simp [set_master_account_id, add_campaign, add_parties, add_regions,
          add_districts, add_candidates, add_recommendations, ha] at harg
        subst harg
        refine ⟨?_, ?_, ?_, ?_, ?_, ?_⟩ <;>
          first
            | exact keysPreserved_refl _
            | exact keysPreserved_applyBatch _ _
            | exact keysPreserved_mapInsert _ _ _
            | (rw [foldl_insert_triples_eq_applyBatch]
               exact keysPreserved_applyBatch _ _))

/-- Witness for C8: the recommendation overwrite `(100, 200, 12)` keeps every
pre-existing key present. -/
theorem no_deletion_witness :
    ∃ s2, add_recommendations sampleState "admin" [(100, 200, 12)] =
      Except.ok s2 ∧ tablesPreserved sampleState s2 := by
  refine ⟨_, rfl, ?_⟩
  exact (no_deletion sampleState).2.2.2.2.2.2 "admin" [(100, 200, 12)] _ rfl

/-- Counterexample for C6 as stated: batches are not order-independent.
With a duplicated key the final lookup differs between the two orders, and
even with distinct keys the two orders produce different final states (the
insertion order of fresh keys differs, which `get_parties` exposes). -/
theorem bulk_add_not_order_independent :
    Except.map (fun st => mapGet st.parties 1)
        (add_parties emptyState "admin" [(1, "a"), (1, "b")]) =
      Except.ok (some "b") ∧
    Except.map (fun st => mapGet st.parties 1)
        (add_parties emptyState "admin" [(1, "b"), (1, "a")]) =
      Except.ok (some "a") ∧
    add_parties emptyState "admin" [(1, "a"), (1, "b")] ≠
      add_parties emptyState "admin" [(1, "b"), (1, "a")] ∧
    add_parties emptyState "admin" [(1, "a"), (2, "b")] ≠
      add_parties emptyState "admin" [(2, "b"), (1, "a")] :=
  ⟨by decide, by decide, by decide, by decide⟩

/-- C6 (amended): within each bulk `add_*` batch, a single entry applied
twice yields exactly the state of applying it once; and for a batch whose
keys are pairwise distinct, any permutation of the batch yields a final
state with identical point lookups at every key (the stored map is the same;
only the iteration/insertion order may differ, and with duplicate keys even
lookups may differ). -/
theorem bulk_add_idem_and_perm_lookup :
    (∀ (K V : Type) (inst : DecidableEq K) (m : List (K × V)) (k : K) (v : V),
      mapInsert (mapInsert m k v) k v = mapInsert m k v) ∧
    (∀ s caller (d : Nat × String),
      add_parties s caller [d, d] = add_parties s caller [d]) ∧
    (∀ s caller (d : Nat × Region),
      add_regions s caller [d, d] = add_regions s caller [d]) ∧
    (∀ s caller (d : Nat × District),
      add_districts s caller [d, d] = add_districts s caller [d]) ∧
    (∀ s caller (d : Nat × Candidate),
      add_candidates s caller [d, d] = add_candidates s caller [d]) ∧
    (∀ s caller (d : Nat × Nat × Nat),
      add_recommendations s caller [d, d] = add_recommendations s caller [d]) ∧
    (∀ (K V : Type) (inst : DecidableEq K) (m : List (K × V))
        (l1 l2 : List (K × V)), l1.Perm l2 → (l1.map Prod.fst).Nodup →
      ∀ k, mapGet (applyBatch m l1) k = mapGet (applyBatch m l2) k) ∧
    (∀ s caller (l1 l2 : List (Nat × String)), l1.Perm l2 →
      (l1.map Prod.fst).Nodup → ∀ k,
      Except.map (fun st => mapGet st.parties k) (add_parties s caller l1) =
        Except.map (fun st => mapGet st.parties k) (add_parties s caller l2)) ∧
    (∀ s caller (l1 l2 : List (Nat × Nat × Nat)), l1.Perm l2 →
      (l1.map (fun d => RecommendationIndex.mk d.1 d.2.1)).Nodup →
      ∀ ci di,
      Except.map (fun st => mapGet st.recommendations { campaign_id := ci, district_id := di })
          (add_recommendations s caller l1) =
        Except.map (fun st => mapGet st.recommendations { campaign_id := ci, district_id := di })
          (add_recommendations s caller l2)) := by
  refine ⟨fun K V inst m k v => mapInsert_idem m k v, ?_, ?_, ?_, ?_, ?_,
    fun K V inst m l1 l2 hp hnd k => mapGet_applyBatch_perm m l1 l2 hp hnd k,
    ?_, ?_⟩
  · intro s caller d
    cases ha : assert_access s caller with
    | error e => simp [add_parties, ha]
    | ok u => simp [add_parties, ha, applyBatch, mapInsert_idem]
  · intro s caller d
    cases ha : assert_access s caller with
    | error e => simp [add_regions, ha]
    | ok u => simp [add_regions, ha, applyBatch, mapInsert_idem]
  · intro s caller d
    cases ha : assert_access s caller with
    | error e => simp [add_districts, ha]
    | ok u => simp [add_districts, ha, applyBatch, mapInsert_idem]
  · intro s caller d
    cases ha : assert_access s caller with
    | error e => simp [add_candidates, ha]
    | ok u => simp [add_candidates, ha, applyBatch, mapInsert_idem]
  · intro s caller d
    cases ha : assert_access s caller with
    | error e => simp [add_recommendations, ha]
    | ok u => simp [add_recommendations, ha, mapInsert_idem]
  · intro s caller l1 l2 hp hnd k
    cases ha : assert_access s caller with
    | error e => simp [add_parties, ha]
    | ok u =>
        have h1 : add_parties s caller l1 =
            Except.ok { s with parties := applyBatch s.parties l1 } := by
          simp [add_parties, ha]
        have h2 : add_parties s caller l2 =
            Except.ok { s with parties := applyBatch s.parties l2 } := by
          simp [add_parties, ha]
        rw [h1, h2]
        show Except.ok (mapGet (applyBatch s.parties l1) k) =
          Except.ok (mapGet (applyBatch s.parties l2) k)
        rw [mapGet_applyBatch_perm s.parties l1 l2 hp hnd k]
  · intro s caller l1 l2 hp hnd ci di
    cases ha : assert_access s caller with
    | error e => simp [add_recommendations, ha]
    | ok u =>
        have h1 : add_recommendations s caller l1 =
            Except.ok
              { s with
                recommendations := applyBatch s.recommendations
                  (l1.map (fun data =>
                    ({ campaign_id := data.1, district_id := data.2.1 },
                      data.2.2))) } := by
          simp [add_recommendations, ha, foldl_insert_triples_eq_applyBatch]
        have h2 : add_recommendations s caller l2 =
            Except.ok
              { s with
                recommendations := applyBatch s.recommendations
                  (l2.map (fun data =>
                    ({ campaign_id := data.1, district_id := data.2.1 },
                      data.2.2))) } := by
          simp [add_recommendations, ha, foldl_insert_triples_eq_applyBatch]
        rw [h1, h2]
        show Except.ok (mapGet (applyBatch s.recommendations
            (l1.map (fun data =>
              ({ campaign_id := data.1, district_id := data.2.1 }, data.2.2))))
            { campaign_id := ci, district_id := di }) =
          Except.ok (mapGet (applyBatch s.recommendations
            (l2.map (fun data =>
              ({ campaign_id := data.1, district_id := data.2.1 }, data.2.2))))
            { campaign_id := ci, district_id := di })
        rw [mapGet_applyBatch_perm s.recommendations _ _
          (hp.map (fun data =>
            ({ campaign_id := data.1, district_id := data.2.1 }, data.2.2)))
          (by
            rw [List.map_map]
            simpa [Function.comp] using hnd)
          { campaign_id := ci, district_id := di }]

/-- Witness for C6 (amended): a distinct-key permuted batch gives the same
lookup result at key 1, and a doubled single entry equals the single one. -/
theorem bulk_add_idem_and_perm_lookup_witness :
    Except.map (fun st => mapGet st.parties 1)
        (add_parties emptyState "admin" [(1, "a"), (2, "b")]) =
      Except.map (fun st => mapGet st.parties 1)
        (add_parties emptyState "admin" [(2, "b"), (1, "a")]) ∧
    add_parties emptyState "admin" [(3, "c"), (3, "c")] =
      add_parties emptyState "admin" [(3, "c")] := by
  constructor
  · exact (bulk_add_idem_and_perm_lookup).2.2.2.2.2.2.2.1 emptyState "admin"
      [(1, "a"), (2, "b")] [(2, "b"), (1, "a")] (by decide) (by decide) 1
  · exact (bulk_add_idem_and_perm_lookup).2.1 emptyState "admin" (3, "c")

/-- C10: `get_votesmart` reads only the recommendation index, the candidates
table and the parties table: two states agreeing on those three (whatever
their campaigns, districts, regions or master account) resolve identically
for any callers; and it can return a result even though the queried
`campaign_id` and `district_id` are absent from the campaigns and districts
tables, as on `sampleState`. -/
theorem get_votesmart_frame (s1 s2 : VoteSmart) (c1 c2 : AccountId)
    (campaign_id district_id : Nat)
    (hrec : s1.recommendations = s2.recommendations)
    (hcand : s1.candidates = s2.candidates)
    (hpart : s1.parties = s2.parties) :
    get_votesmart s1 c1 campaign_id district_id =
      get_votesmart s2 c2 campaign_id district_id ∧
    mapGet sampleState.campaigns 100 = none ∧
    mapGet sampleState.districts 200 = none ∧
    get_votesmart sampleState "reader" 100 200 =
      some { title := "Alice", party := "Green" } := by
  refine ⟨?_, by decide, by decide, by decide⟩
  unfold get_votesmart
  rw [hrec, hcand, hpart]

/-- Witness for C10: emptying the campaigns, districts and regions tables
(and changing the master account) does not change resolution. -/
theorem get_votesmart_frame_witness :
    get_votesmart sampleState "a" 100 200 =
      get_votesmart
        { sampleState with
          campaigns := []
          districts := []
          regions := []
          master_account_id := "other" } "b" 100 200 :=
  (get_votesmart_frame sampleState
    { sampleState with
      campaigns := []
      districts := []
      regions := []
      master_account_id := "other" } "a" "b" 100 200 rfl rfl rfl).1

end Votesmart
